import Mathlib

/-!
Verification of the `AudioResampler` class (src/index.ts) of avr-resampler.

Shallow embedding conventions:
- A Node `Buffer` is a `List ℕ` of byte values; a byte produced by the runtime
  is always `< 256`, which theorems carry as a hypothesis where it matters.
- `Int16Array` samples are `ℤ` (valid range -32768..32767); the little-endian
  reinterpretation `new Int16Array(buf.buffer, buf.byteOffset, buf.length / 2)`
  is `bytesToInt16` (the fractional length `len / 2` for odd `len` truncates
  per ECMAScript ToIndex, so a trailing odd byte is ignored).
- `Float32Array` values are modelled as exact rationals `ℚ`: every float
  operation the codec performs on int16-derived data (division by 2^15,
  multiplication by 2^15, comparisons) is exact in binary floating point for
  these inputs, so the ℚ model agrees with float32 on them.
- The external conversion primitive `resampler.simple` is an opaque parameter
  `simple : List ℚ → Except Unit (List ℚ)`; `Except.error` models a thrown
  exception propagating out of the call.
- The two JS `while` loops are translated with a fuel argument bounding the
  iteration count; the loop guard is the source's condition, and the fuel
  passed at each call site (the buffer length) exceeds the possible number of
  iterations whenever the chunk size is positive, which holds at every rate
  the theorems quantify over. (For chunk size 0 the JS source would loop
  forever; the model simply stops, a divergence outside all claims.)
- `Math.floor(r * 0.01 * 2)` and `Math.floor(8000 * 0.02 * 2)` are modelled
  with exact natural division; the float64 computation agrees at every rate
  mentioned by the claims and theorems below (checked by hand for 100, 150,
  8000 and all multiples of 100 in range).
-/

namespace AVR

/-- Reading a 16-bit little-endian value `lo + 256 * hi` as a signed Int16
(two's complement), as `Int16Array` element access does. -/
def toSigned16 (v : ℕ) : ℤ :=
  if v < 32768 then (v : ℤ) else (v : ℤ) - 65536

/-- The view `new Int16Array(buf.buffer, buf.byteOffset, buf.length / 2)`:
consecutive byte pairs become signed 16-bit samples, little-endian; a trailing
odd byte is not part of any sample (ToIndex truncates `len / 2`). -/
def bytesToInt16 : List ℕ → List ℤ
  | lo :: hi :: rest => toSigned16 (lo + 256 * hi) :: bytesToInt16 rest
  | _ => []

/-- `Buffer.from(int16Array.buffer)`: each sample is stored as its two's
complement 16-bit value, emitted little-endian. -/
def int16ToBytes : List ℤ → List ℕ
  | [] => []
  | s :: rest => (s % 65536).toNat % 256 :: (s % 65536).toNat / 256 :: int16ToBytes rest

/-- `AudioResampler.int16ToFloat32`: each output is `input[i] / 32768`
(exact in float32 for int16 inputs). -/
def int16ToFloat32 (int16Samples : List ℤ) : List ℚ :=
  int16Samples.map (fun s => (Int.cast s : ℚ) / 32768)

/-- ECMAScript ToInt16 truncation toward zero (the fractional part of the
clamped value is discarded on assignment to an `Int16Array` element). -/
def truncToward0 (q : ℚ) : ℤ :=
  if q < 0 then ⌈q⌉ else ⌊q⌋

/-- `AudioResampler.float32ToInt16`: multiply by 32768, clamp to
[-32768, 32767], truncate on storing into the `Int16Array`. -/
def float32ToInt16 (float32Samples : List ℚ) : List ℤ :=
  float32Samples.map (fun q => truncToward0 (max (-32768) (min 32767 (q * 32768))))

/-- The fixed client rate (`this.clientSampleRate = 8000`). -/
def clientSampleRate : ℕ := 8000

/-- Result of `getBufferSizes()`. -/
structure BufferSizes where
  providerChunkSize : ℕ
  clientChunkSize : ℕ
  downsampleThreshold : ℕ
  deriving DecidableEq

/-- `getBufferSizes()`: `Math.floor(providerSampleRate * 0.01 * 2)`,
`Math.floor(clientSampleRate * 0.02 * 2)` and twice the provider chunk. -/
def getBufferSizes (providerSampleRate : ℕ) : BufferSizes :=
  let providerChunkSize := providerSampleRate * 2 / 100
  let clientChunkSize := clientSampleRate * 4 / 100
  { providerChunkSize := providerChunkSize
    clientChunkSize := clientChunkSize
    downsampleThreshold := providerChunkSize * 2 }

/-- The mutable fields of an `AudioResampler` instance. The converter handles
are opaque resources; the model records only whether each is non-null. -/
structure ResamplerState where
  providerSampleRate : ℕ
  isInitialized : Bool
  downResampler : Bool
  upResampler : Bool
  downsampleBuffer : Option (List ℕ)
  deriving DecidableEq

/-- The constructor `new AudioResampler(providerSampleRate)`. -/
def mkAudioResampler (providerSampleRate : ℕ) : ResamplerState :=
  { providerSampleRate := providerSampleRate
    isInitialized := false
    downResampler := false
    upResampler := false
    downsampleBuffer := none }

/-- `initialize()`: no-op when already initialized, otherwise creates both
converter handles and marks the instance initialized. -/
def initResampler (st : ResamplerState) : ResamplerState :=
  if st.isInitialized then st
  else { st with downResampler := true, upResampler := true, isInitialized := true }

/-- `initialize()` together with a ghost counter of `create(...)` calls, used
to observe duplicate resource creation: each actual initialization performs
exactly two `create` calls. -/
def initResamplerTracked (p : ResamplerState × ℕ) : ResamplerState × ℕ :=
  if p.1.isInitialized then p else (initResampler p.1, p.2 + 2)

/-- `destroy()`: clears the residual buffer, the handles and the flag. -/
def destroy (st : ResamplerState) : ResamplerState :=
  { st with downsampleBuffer := none
            isInitialized := false
            downResampler := false
            upResampler := false }

/-- One conversion pass over a byte slice (lines 132-138 and 197-207 of the
source): reinterpret as Int16, convert to float32, run the primitive, convert
back and rematerialize as bytes. An error from the primitive propagates. -/
def resamplePass (simple : List ℚ → Except Unit (List ℚ)) (chunk : List ℕ) :
    Except Unit (List ℕ) :=
  (simple (int16ToFloat32 (bytesToInt16 chunk))).map
    (fun fs => int16ToBytes (float32ToInt16 fs))

/-- The inner re-segmentation loop (`while (resampledOffset + clientChunkSize
<= resampledBuffer.length)`), fuel-bounded: emits full `chunkSize`-byte chunks
from the front and returns them with the remaining bytes. -/
def splitChunksGo (chunkSize : ℕ) : ℕ → List ℕ → List (List ℕ) → List (List ℕ) × List ℕ
  | 0, buf, acc => (acc, buf)
  | fuel + 1, buf, acc =>
    if 0 < chunkSize ∧ chunkSize ≤ buf.length then
      splitChunksGo chunkSize fuel (buf.drop chunkSize) (acc ++ [buf.take chunkSize])
    else (acc, buf)

/-- The inner re-segmentation loop started at offset 0 with sufficient fuel. -/
def splitChunks (chunkSize : ℕ) (buf : List ℕ) : List (List ℕ) × List ℕ :=
  splitChunksGo chunkSize buf.length buf []

/-- Outcome of the outer processing loop of `handleDownsampleChunk`:
either normal exit carrying the current `this.downsampleBuffer`, the
unconsumed input and the output chunks so far, or a thrown conversion error
carrying the `this.downsampleBuffer` mutations already applied. -/
inductive DownsampleLoopResult where
  | ok (buffer : Option (List ℕ)) (rest : List ℕ) (outs : List (List ℕ))
  | thrown (buffer : Option (List ℕ))
  deriving DecidableEq

/-- The outer loop of `handleDownsampleChunk` (lines 127-151), fuel-bounded:
while a full threshold slice is available, run one conversion pass on it,
emit full client-size chunks from the pass output and store the fractional
remainder of the pass output in `this.downsampleBuffer` (overwriting it). -/
def downsampleLoopGo (simple : List ℚ → Except Unit (List ℚ))
    (threshold chunkSize : ℕ) :
    ℕ → Option (List ℕ) → List ℕ → List (List ℕ) → DownsampleLoopResult
  | 0, buffer, rest, outs => .ok buffer rest outs
  | fuel + 1, buffer, rest, outs =>
    if 0 < threshold ∧ threshold ≤ rest.length then
      match resamplePass simple (rest.take threshold) with
      | .error _ => .thrown buffer
      | .ok resampled =>
        let split := splitChunks chunkSize resampled
        downsampleLoopGo simple threshold chunkSize fuel
          (if split.2.isEmpty then none else some split.2)
          (rest.drop threshold) (outs ++ split.1)
    else .ok buffer rest outs

/-- `Buffer.concat([this.downsampleBuffer, incomingData])` when a residual is
present, else `incomingData` (line 119-121). -/
def combinedBuffer (st : ResamplerState) (incomingData : List ℕ) : List ℕ :=
  match st.downsampleBuffer with
  | some b => b ++ incomingData
  | none => incomingData

/-- `handleDownsampleChunk(incomingData)`: lazy initialization, accumulate,
process full threshold slices, re-segment into client chunks; afterwards any
unconsumed input overwrites `this.downsampleBuffer` (line 154-156); on a
thrown conversion error the mutations already applied remain. -/
def handleDownsampleChunk (simple : List ℚ → Except Unit (List ℚ))
    (st : ResamplerState) (incomingData : List ℕ) :
    ResamplerState × Except Unit (List (List ℕ)) :=
  let st := initResampler st
  let sizes := getBufferSizes st.providerSampleRate
  let combined := combinedBuffer st incomingData
  match downsampleLoopGo simple sizes.downsampleThreshold sizes.clientChunkSize
      combined.length st.downsampleBuffer combined [] with
  | .thrown buffer => ({ st with downsampleBuffer := buffer }, .error ())
  | .ok buffer rest outs =>
    ({ st with downsampleBuffer := if rest.isEmpty then buffer else some rest }, .ok outs)

/-- `handleUpsampleChunk(incomingData)`: lazy initialization, one conversion
pass over the whole input, no buffering. -/
def handleUpsampleChunk (simple : List ℚ → Except Unit (List ℚ))
    (st : ResamplerState) (incomingData : List ℕ) :
    ResamplerState × Except Unit (List ℕ) :=
  let st := initResampler st
  (st, resamplePass simple incomingData)

/-- `flushDownsampleRemainder()`: empty or absent residual returns `[]`
unchanged; otherwise one final conversion pass over the residual, full client
chunks emitted, a non-empty fractional remainder zero-padded to a full client
chunk (lines 216-221), and the residual cleared. -/
def flushDownsampleRemainder (simple : List ℚ → Except Unit (List ℚ))
    (st : ResamplerState) : ResamplerState × Except Unit (List (List ℕ)) :=
  let sizes := getBufferSizes st.providerSampleRate
  match st.downsampleBuffer with
  | none => (st, .ok [])
  | some buf =>
    if buf.isEmpty then (st, .ok [])
    else
      match resamplePass simple buf with
      | .error e => (st, .error e)
      | .ok resampled =>
        let split := splitChunks sizes.clientChunkSize resampled
        let outs :=
          if split.2.isEmpty then split.1
          else split.1 ++ [split.2 ++ List.replicate (sizes.clientChunkSize - split.2.length) 0]
        ({ st with downsampleBuffer := none }, .ok outs)

/-- The identity pass-through stand-in for the conversion primitive
(rate 8000 -> 8000), as prescribed by the no-data-loss property. -/
def idSimple : List ℚ → Except Unit (List ℚ) := fun fs => .ok fs

/-- Feed a list of downsample calls in order with the identity stand-in,
collecting all emitted chunks (no call throws with a total primitive, but the
fold is defined to stop on a thrown error). -/
def runDownsampleCalls (st : ResamplerState) : List (List ℕ) → ResamplerState × List (List ℕ)
  | [] => (st, [])
  | c :: cs =>
    match handleDownsampleChunk idSimple st c with
    | (st', Except.ok outs) =>
      let rest := runDownsampleCalls st' cs
      (rest.1, outs ++ rest.2)
    | (st', Except.error _) => (st', [])

/-- A full downsample session at provider rate 8000 with the identity
stand-in: a fresh instance, the given calls, then one flush; returns every
chunk emitted. -/
def downsampleSession (calls : List (List ℕ)) : List (List ℕ) :=
  let run := runDownsampleCalls (mkAudioResampler 8000) calls
  match flushDownsampleRemainder idSimple run.1 with
  | (_, Except.ok fouts) => run.2 ++ fouts
  | (_, Except.error _) => run.2

/-- A residual byte list as the nullable `downsampleBuffer` field stores it:
`null` when there is nothing left over, the non-empty list otherwise (the
source never stores an empty buffer in the field). -/
def listToOpt (l : List ℕ) : Option (List ℕ) :=
  if l.isEmpty then none else some l

/-- A conversion primitive that succeeds (as the identity) exactly on sample
sequences starting with a zero sample and throws otherwise; used to exhibit a
call whose second conversion pass fails after a successful first pass. -/
def simpleFailNonzero : List ℚ → Except Unit (List ℚ) :=
  fun fs => if fs.head? = some 0 then .ok fs else .error ()

/-- A conversion primitive that always throws (e.g. resource exhaustion on
every invocation). -/
def simpleFailAll : List ℚ → Except Unit (List ℚ) :=
  fun _ => .error ()

/-- A concrete initialized instance at provider rate 100 (threshold 4 bytes)
holding a two-byte pre-resample residual. -/
def cexState3 : ResamplerState :=
  { providerSampleRate := 100
    isInitialized := true
    downResampler := true
    upResampler := true
    downsampleBuffer := some [0, 0] }

/-- The states an `AudioResampler` instance can reach through its public
methods, with arbitrary primitives and inputs at every step. -/
inductive Reachable : ResamplerState → Prop where
  | construct (rate : ℕ) : Reachable (mkAudioResampler rate)
  | initializeStep {st} : Reachable st → Reachable (initResampler st)
  | downsampleStep {st} (simple) (data : List ℕ) :
      Reachable st → Reachable (handleDownsampleChunk simple st data).1
  | upsampleStep {st} (simple) (data : List ℕ) :
      Reachable st → Reachable (handleUpsampleChunk simple st data).1
  | flushStep {st} (simple) :
      Reachable st → Reachable (flushDownsampleRemainder simple st).1
  | destroyStep {st} : Reachable st → Reachable (destroy st)

theorem listToOpt_nil : listToOpt [] = none := rfl

theorem listToOpt_ne_nil {l : List ℕ} (h : l ≠ []) : listToOpt l = some l := by
  simp [listToOpt, h]

theorem toSigned16_range (v : ℕ) (h : v < 65536) :
    -32768 ≤ toSigned16 v ∧ toSigned16 v ≤ 32767 := by
  unfold toSigned16
  split <;> omega

theorem toSigned16_emod_toNat (lo hi : ℕ) (hlo : lo < 256) (hhi : hi < 256) :
    ((toSigned16 (lo + 256 * hi)) % 65536).toNat = lo + 256 * hi := by
  unfold toSigned16
  split <;> omega

theorem bytesToInt16_range : ∀ (l : List ℕ), (∀ b ∈ l, b < 256) →
    ∀ s ∈ bytesToInt16 l, -32768 ≤ s ∧ s ≤ 32767
  | [], _ => by simp [bytesToInt16]
  | [_], _ => by simp [bytesToInt16]
  | lo :: hi :: rest, h => by
    have hlo : lo < 256 := h lo (by simp)
    have hhi : hi < 256 := h hi (by simp)
    have hrest := bytesToInt16_range rest (fun b hb => h b (by simp [hb]))
    intro s hs
    rw [bytesToInt16, List.mem_cons] at hs
    rcases hs with hs | hs
    · subst hs
      exact toSigned16_range _ (by omega)
    · exact hrest s hs

theorem int16ToBytes_bytesToInt16 : ∀ (l : List ℕ), (∀ b ∈ l, b < 256) →
    l.length % 2 = 0 → int16ToBytes (bytesToInt16 l) = l
  | [], _, _ => rfl
  | [_], _, h => by simp at h
  | lo :: hi :: rest, h, hev => by
    have hlo : lo < 256 := h lo (by simp)
    have hhi : hi < 256 := h hi (by simp)
    have hmod := toSigned16_emod_toNat lo hi hlo hhi
    have hrest := int16ToBytes_bytesToInt16 rest (fun b hb => h b (by simp [hb]))
      (by have h2 := hev; simp only [List.length_cons] at h2; omega)
    rw [bytesToInt16, int16ToBytes, hmod, hrest]
    have e1 : (lo + 256 * hi) % 256 = lo := by omega
    have e2 : (lo + 256 * hi) / 256 = hi := by omega
    rw [e1, e2]

theorem truncToward0_clamp_intCast (s : ℤ) (h1 : -32768 ≤ s) (h2 : s ≤ 32767) :
    truncToward0 (max (-32768) (min 32767 ((s : ℚ) / 32768 * 32768))) = s := by
  rw [div_mul_cancel₀ _ (by norm_num : (32768 : ℚ) ≠ 0)]
  rw [min_eq_right (by exact_mod_cast h2 : (s : ℚ) ≤ 32767)]
  rw [max_eq_right (by exact_mod_cast h1 : (-32768 : ℚ) ≤ (s : ℚ))]
  unfold truncToward0
  split
  · exact Int.ceil_intCast s
  · exact Int.floor_intCast s

theorem float32ToInt16_int16ToFloat32 (l : List ℤ)
    (h : ∀ s ∈ l, -32768 ≤ s ∧ s ≤ 32767) :
    float32ToInt16 (int16ToFloat32 l) = l := by
  unfold float32ToInt16 int16ToFloat32
  rw [List.map_map]
  induction l with
  | nil => rfl
  | cons s rest ih =>
    have hs := h s (by simp)
    rw [List.map_cons, ih (fun x hx => h x (by simp [hx]))]
    rw [Function.comp_apply, truncToward0_clamp_intCast s hs.1 hs.2]

theorem codec_bytes_roundtrip (l : List ℕ) (hval : ∀ b ∈ l, b < 256)
    (hev : l.length % 2 = 0) :
    int16ToBytes (float32ToInt16 (int16ToFloat32 (bytesToInt16 l))) = l := by
  rw [float32ToInt16_int16ToFloat32 _ (bytesToInt16_range l hval)]
  exact int16ToBytes_bytesToInt16 l hval hev

theorem resamplePass_of_id_on (simple : List ℚ → Except Unit (List ℚ))
    (l : List ℕ) (hval : ∀ b ∈ l, b < 256) (hev : l.length % 2 = 0)
    (hfix : simple (int16ToFloat32 (bytesToInt16 l))
      = Except.ok (int16ToFloat32 (bytesToInt16 l))) :
    resamplePass simple l = Except.ok l := by
  unfold resamplePass
  rw [hfix]
  simp [Except.map, codec_bytes_roundtrip l hval hev]

theorem resamplePass_idSimple (l : List ℕ) (hval : ∀ b ∈ l, b < 256)
    (hev : l.length % 2 = 0) : resamplePass idSimple l = Except.ok l :=
  resamplePass_of_id_on idSimple l hval hev rfl

theorem bytesToInt16_dropLast : ∀ (l : List ℕ), l.length % 2 = 1 →
    bytesToInt16 l = bytesToInt16 l.dropLast
  | [], h => by simp at h
  | [_], _ => by simp [bytesToInt16]
  | lo :: hi :: rest, h => by
    have hr : rest.length % 2 = 1 := by simp at h ⊢; omega
    have hne : rest ≠ [] := by
      intro he
      rw [he] at hr
      simp at hr
    have := bytesToInt16_dropLast rest hr
    rw [bytesToInt16, this]
    have hd : (lo :: hi :: rest).dropLast = lo :: hi :: rest.dropLast := by
      simp [List.dropLast_cons_of_ne_nil, hne]
    rw [hd, bytesToInt16]

theorem splitChunksGo_short (n : ℕ) (buf : List ℕ) (h : buf.length < n) :
    ∀ (fuel : ℕ) (acc : List (List ℕ)), splitChunksGo n fuel buf acc = (acc, buf) := by
  intro fuel acc
  cases fuel with
  | zero => rfl
  | succ f =>
    rw [splitChunksGo, if_neg]
    intro hc
    omega

theorem splitChunks_short (n : ℕ) (buf : List ℕ) (h : buf.length < n) :
    splitChunks n buf = ([], buf) :=
  splitChunksGo_short n buf h _ _

theorem splitChunksGo_step (n : ℕ) (buf : List ℕ) (hn : 0 < n)
    (h : n ≤ buf.length) (fuel : ℕ) (acc : List (List ℕ)) :
    splitChunksGo n (fuel + 1) buf acc
      = splitChunksGo n fuel (buf.drop n) (acc ++ [buf.take n]) := by
  rw [splitChunksGo, if_pos ⟨hn, h⟩]

theorem splitChunks_exact (n : ℕ) (buf : List ℕ) (hn : 0 < n)
    (h : buf.length = n) : splitChunks n buf = ([buf], []) := by
  unfold splitChunks
  obtain ⟨f, hf⟩ : ∃ f, buf.length = f + 1 := ⟨buf.length - 1, by omega⟩
  rw [hf, splitChunksGo_step n buf hn (by omega) f []]
  rw [List.drop_eq_nil_of_le (by omega), List.take_of_length_le (by omega)]
  rw [splitChunksGo_short n [] (by simpa using hn) f _]
  simp

theorem splitChunksGo_spec (n : ℕ) (hn : 0 < n) :
    ∀ (fuel : ℕ) (buf : List ℕ) (acc : List (List ℕ)), buf.length ≤ fuel →
    ∃ pre : List (List ℕ),
      (splitChunksGo n fuel buf acc).1 = acc ++ pre ∧
      pre.flatten ++ (splitChunksGo n fuel buf acc).2 = buf ∧
      (∀ c ∈ pre, c.length = n) ∧
      (splitChunksGo n fuel buf acc).2.length < n := by
  intro fuel
  induction fuel with
  | zero =>
    intro buf acc hle
    have : buf = [] := List.eq_nil_of_length_eq_zero (by omega)
    subst this
    exact ⟨[], by simp [splitChunksGo], by simp [splitChunksGo], by simp, by
      simp [splitChunksGo]; omega⟩
  | succ f ih =>
    intro buf acc hle
    by_cases hc : n ≤ buf.length
    · rw [splitChunksGo_step n buf hn hc f acc]
      obtain ⟨pre, h1, h2, h3, h4⟩ := ih (buf.drop n) (acc ++ [buf.take n])
        (by simp; omega)
      refine ⟨buf.take n :: pre, ?_, ?_, ?_, h4⟩
      · rw [h1, List.append_assoc]
        rfl
      · rw [List.flatten_cons, List.append_assoc, h2, List.take_append_drop]
      · intro c hc2
        rcases List.mem_cons.mp hc2 with hh | hh
        · subst hh
          simp
          omega
        · exact h3 c hh
    · rw [splitChunksGo_short n buf (by omega) _ _]
      exact ⟨[], by simp, by simp, by simp, by simp; omega⟩

theorem splitChunks_spec (n : ℕ) (hn : 0 < n) (buf : List ℕ) :
    (splitChunks n buf).1.flatten ++ (splitChunks n buf).2 = buf ∧
    (∀ c ∈ (splitChunks n buf).1, c.length = n) ∧
    (splitChunks n buf).2.length < n := by
  obtain ⟨pre, h1, h2, h3, h4⟩ := splitChunksGo_spec n hn buf.length buf [] le_rfl
  unfold splitChunks
  rw [h1]
  simp only [List.nil_append]
  exact ⟨h2, h3, h4⟩

theorem downsampleLoopGo_exit (simple : List ℚ → Except Unit (List ℚ))
    (th n fuel : ℕ) (buffer : Option (List ℕ)) (rest : List ℕ)
    (outs : List (List ℕ)) (h : ¬(0 < th ∧ th ≤ rest.length)) :
    downsampleLoopGo simple th n fuel buffer rest outs = .ok buffer rest outs := by
  cases fuel with
  | zero => rfl
  | succ f => rw [downsampleLoopGo, if_neg h]

theorem downsampleLoopGo_step (simple : List ℚ → Except Unit (List ℚ))
    (th n fuel : ℕ) (buffer : Option (List ℕ)) (rest : List ℕ)
    (outs : List (List ℕ)) (hth : 0 < th) (hlen : th ≤ rest.length) :
    downsampleLoopGo simple th n (fuel + 1) buffer rest outs =
      match resamplePass simple (rest.take th) with
      | .error _ => .thrown buffer
      | .ok resampled =>
        downsampleLoopGo simple th n fuel
          (if (splitChunks n resampled).2.isEmpty then none
            else some (splitChunks n resampled).2)
          (rest.drop th) (outs ++ (splitChunks n resampled).1) := by
  rw [downsampleLoopGo, if_pos ⟨hth, hlen⟩]

theorem downsampleLoopGo_id : ∀ (fuel : ℕ) (rest : List ℕ)
    (buffer : Option (List ℕ)) (outs : List (List ℕ)),
    rest.length ≤ fuel → (∀ b ∈ rest, b < 256) →
    ∃ pre : List (List ℕ),
      downsampleLoopGo idSimple 320 320 fuel buffer rest outs
        = .ok (if rest.length < 320 then buffer else none)
            (rest.drop (320 * (rest.length / 320))) (outs ++ pre) ∧
      pre.flatten = rest.take (320 * (rest.length / 320)) ∧
      ∀ c ∈ pre, c.length = 320 := by
  intro fuel
  induction fuel with
  | zero =>
    intro rest buffer outs hle hval
    have : rest = [] := List.eq_nil_of_length_eq_zero (by omega)
    subst this
    exact ⟨[], by simp [downsampleLoopGo], by simp, by simp⟩
  | succ f ih =>
    intro rest buffer outs hle hval
    by_cases h320 : 320 ≤ rest.length
    · have htake : (rest.take 320).length = 320 := by
        rw [List.length_take]
        omega
      have hpass : resamplePass idSimple (rest.take 320) = Except.ok (rest.take 320) :=
        resamplePass_idSimple _ (fun b hb => hval b (List.take_subset _ _ hb))
          (by rw [htake])
      rw [downsampleLoopGo_step idSimple 320 320 f buffer rest outs (by norm_num) h320,
        hpass]
      dsimp only
      rw [splitChunks_exact 320 _ (by norm_num) htake]
      dsimp only
      simp only [List.isEmpty_nil, if_true]
      obtain ⟨pre, heq, hflat, hlen⟩ := ih (rest.drop 320) none (outs ++ [rest.take 320])
        (by rw [List.length_drop]; omega)
        (fun b hb => hval b (List.drop_subset _ _ hb))
      rw [heq]
      refine ⟨rest.take 320 :: pre, ?_, ?_, ?_⟩
      · have e1 : (if (List.drop 320 rest).length < 320 then (none : Option (List ℕ))
            else none) = none := ite_self _
        have e2 : (if rest.length < 320 then buffer else none) = none := if_neg (by omega)
        have e3 : List.drop (320 * ((List.drop 320 rest).length / 320)) (List.drop 320 rest)
            = List.drop (320 * (rest.length / 320)) rest := by
          rw [List.length_drop, List.drop_drop]
          have harith : 320 + 320 * ((rest.length - 320) / 320)
              = 320 * (rest.length / 320) := by omega
          rw [harith]
        have e4 : outs ++ [List.take 320 rest] ++ pre
            = outs ++ (List.take 320 rest :: pre) := by
          rw [List.append_assoc]
          rfl
        rw [e1, e2, e3, e4]
      · rw [List.flatten_cons, hflat, List.length_drop]
        have hdiv : 320 * (rest.length / 320) = 320 + 320 * ((rest.length - 320) / 320) := by
          omega
        rw [hdiv, List.take_add]
      · intro c hc
        rcases List.mem_cons.mp hc with hh | hh
        · rw [hh, htake]
        · exact hlen c hh
    · rw [downsampleLoopGo_exit idSimple 320 320 (f + 1) buffer rest outs (by omega)]
      have h0 : rest.length / 320 = 0 := by omega
      refine ⟨[], ?_, ?_, by simp⟩
      · rw [h0, if_pos (by omega : rest.length < 320)]
        simp
      · rw [h0]
        simp

theorem initResampler_providerSampleRate (st : ResamplerState) :
    (initResampler st).providerSampleRate = st.providerSampleRate := by
  unfold initResampler
  split <;> rfl

theorem initResampler_downsampleBuffer (st : ResamplerState) :
    (initResampler st).downsampleBuffer = st.downsampleBuffer := by
  unfold initResampler
  split <;> rfl

theorem initResampler_isInitialized (st : ResamplerState) :
    (initResampler st).isInitialized = true := by
  unfold initResampler
  split
  · assumption
  · rfl

theorem combinedBuffer_eq (st : ResamplerState) (input r : List ℕ)
    (h : st.downsampleBuffer = listToOpt r) :
    combinedBuffer st input = r ++ input := by
  unfold combinedBuffer
  rw [h]
  unfold listToOpt
  by_cases he : r.isEmpty
  · rw [if_pos he, List.isEmpty_iff.mp he]
    rfl
  · rw [if_neg he]

theorem clientChunkSize_eq (rate : ℕ) : (getBufferSizes rate).clientChunkSize = 320 := rfl

theorem dropFull_append (x y : List ℕ) (hx : x.length % 320 = 0) :
    (x ++ y).drop (320 * ((x ++ y).length / 320)) = y.drop (320 * (y.length / 320)) := by
  have harith : 320 * ((x ++ y).length / 320) = x.length + 320 * (y.length / 320) := by
    rw [List.length_append]
    omega
  rw [harith, List.drop_append]

theorem takeFull_append (x y : List ℕ) (hx : x.length % 320 = 0) :
    (x ++ y).take (320 * ((x ++ y).length / 320)) = x ++ y.take (320 * (y.length / 320)) := by
  have harith : 320 * ((x ++ y).length / 320) = x.length + 320 * (y.length / 320) := by
    rw [List.length_append]
    omega
  rw [harith, List.take_append]

theorem handleDownsampleChunk_id (st : ResamplerState) (input r : List ℕ)
    (hrate : st.providerSampleRate = 8000)
    (hbuf : st.downsampleBuffer = listToOpt r)
    (hvr : ∀ b ∈ r, b < 256) (hvi : ∀ b ∈ input, b < 256) :
    ∃ outs : List (List ℕ),
      handleDownsampleChunk idSimple st input
        = ({ initResampler st with downsampleBuffer := listToOpt ((r ++ input).drop (320 * ((r ++ input).length / 320))) }, Except.ok outs) ∧
      outs.flatten = (r ++ input).take (320 * ((r ++ input).length / 320)) ∧
      ∀ c ∈ outs, c.length = 320 := by
  unfold handleDownsampleChunk
  dsimp only
  have hrate2 : (initResampler st).providerSampleRate = 8000 := by
    rw [initResampler_providerSampleRate, hrate]
  have hbuf2 : (initResampler st).downsampleBuffer = listToOpt r := by
    rw [initResampler_downsampleBuffer, hbuf]
  rw [hrate2, combinedBuffer_eq _ input r hbuf2]
  have hth : (getBufferSizes 8000).downsampleThreshold = 320 := rfl
  have hcs : (getBufferSizes 8000).clientChunkSize = 320 := rfl
  rw [hth, hcs, hbuf2]
  obtain ⟨pre, heq, hflat, hlen⟩ := downsampleLoopGo_id (r ++ input).length (r ++ input)
    (listToOpt r) [] le_rfl
    (fun b hb => by
      rcases List.mem_append.mp hb with h | h
      · exact hvr b h
      · exact hvi b h)
  rw [heq]
  dsimp only
  refine ⟨pre, ?_, by simpa using hflat, hlen⟩
  have hfield : (if ((r ++ input).drop (320 * ((r ++ input).length / 320))).isEmpty
        then (if (r ++ input).length < 320 then listToOpt r else none)
        else some ((r ++ input).drop (320 * ((r ++ input).length / 320))))
      = listToOpt ((r ++ input).drop (320 * ((r ++ input).length / 320))) := by
    set R := (r ++ input).drop (320 * ((r ++ input).length / 320)) with hR
    by_cases hRe : R.isEmpty
    · rw [if_pos hRe]
      have hRnil : R = [] := List.isEmpty_iff.mp hRe
      rw [hRnil, listToOpt_nil]
      by_cases hsmall : (r ++ input).length < 320
      · rw [if_pos hsmall]
        have h0 : (r ++ input).length / 320 = 0 := by omega
        rw [h0] at hR
        simp only [Nat.mul_zero, List.drop_zero] at hR
        have hrnil : r = [] := by
          have hra : r ++ input = [] := by
            rw [← hR]
            exact hRnil
          rcases List.append_eq_nil.mp hra with ⟨h1, _⟩
          exact h1
        rw [hrnil, listToOpt_nil]
      · rw [if_neg hsmall]
    · rw [if_neg hRe]
      rw [listToOpt_ne_nil (fun hc => hRe (by rw [hc]; rfl))]
  rw [hfield]
  simp

theorem runDownsampleCalls_id : ∀ (calls : List (List ℕ)) (st : ResamplerState) (r : List ℕ),
    st.providerSampleRate = 8000 → st.downsampleBuffer = listToOpt r →
    (∀ b ∈ r, b < 256) → r.length < 320 →
    (∀ c ∈ calls, ∀ b ∈ c, b < 256) →
    (runDownsampleCalls st calls).1.providerSampleRate = 8000 ∧
    (runDownsampleCalls st calls).1.downsampleBuffer
      = listToOpt ((r ++ calls.flatten).drop (320 * ((r ++ calls.flatten).length / 320))) ∧
    (runDownsampleCalls st calls).2.flatten
      = (r ++ calls.flatten).take (320 * ((r ++ calls.flatten).length / 320)) ∧
    ∀ c ∈ (runDownsampleCalls st calls).2, c.length = 320 := by
  intro calls
  induction calls with
  | nil =>
    intro st r hrate hbuf hvr hlr _
    have h0 : (r ++ List.flatten []).length / 320 = 0 := by
      simp only [List.flatten_nil, List.append_nil]
      omega
    refine ⟨hrate, ?_, ?_, by simp [runDownsampleCalls]⟩
    · rw [h0]
      simp only [Nat.mul_zero, List.drop_zero, List.flatten_nil, List.append_nil]
      simpa [runDownsampleCalls] using hbuf
    · rw [h0]
      simp [runDownsampleCalls]
  | cons c cs ih =>
    intro st r hrate hbuf hvr hlr hvc
    obtain ⟨outs1, heq, hflat1, hlen1⟩ := handleDownsampleChunk_id st c r hrate hbuf hvr
      (hvc c (by simp))
    rw [runDownsampleCalls, heq]
    dsimp only
    set r1 : List ℕ := (r ++ c).drop (320 * ((r ++ c).length / 320)) with hr1
    set st1 : ResamplerState := { initResampler st with downsampleBuffer := listToOpt r1 }
      with hst1
    have hlen_r1 : r1.length = (r ++ c).length - 320 * ((r ++ c).length / 320) := by
      rw [hr1, List.length_drop]
    have hrate1 : st1.providerSampleRate = 8000 := by
      show (initResampler st).providerSampleRate = 8000
      rw [initResampler_providerSampleRate]
      exact hrate
    have hbuf1 : st1.downsampleBuffer = listToOpt r1 := rfl
    obtain ⟨ih1, ih2, ih3, ih4⟩ := ih st1 r1 hrate1 hbuf1
      (fun b hb => by
        have hb2 : b ∈ r ++ c := List.drop_subset _ _ hb
        rcases List.mem_append.mp hb2 with h | h
        · exact hvr b h
        · exact hvc c (by simp) b h)
      (by rw [hlen_r1]; omega)
      (fun d hd => hvc d (by simp [hd]))
    set A : List ℕ := (r ++ c).take (320 * ((r ++ c).length / 320)) with hA
    have hAlen : A.length % 320 = 0 := by
      rw [hA, List.length_take]
      have : 320 * ((r ++ c).length / 320) ≤ (r ++ c).length := by omega
      rw [min_eq_left this]
      omega
    have hsplit : r ++ c = A ++ r1 := (List.take_append_drop _ _).symm
    have hassoc : r ++ (c :: cs).flatten = A ++ (r1 ++ cs.flatten) := by
      rw [List.flatten_cons, ← List.append_assoc, hsplit, List.append_assoc]
    refine ⟨ih1, ?_, ?_, ?_⟩
    · rw [hassoc, dropFull_append A (r1 ++ cs.flatten) hAlen]
      exact ih2
    · rw [List.flatten_append, hflat1, ih3, hassoc,
        takeFull_append A (r1 ++ cs.flatten) hAlen]
    · intro d hd
      rcases List.mem_append.mp hd with h | h
      · exact hlen1 d h
      · exact ih4 d h

theorem flushDownsampleRemainder_id (st : ResamplerState) (r : List ℕ)
    (hbuf : st.downsampleBuffer = listToOpt r) (hval : ∀ b ∈ r, b < 256)
    (hev : r.length % 2 = 0) (hlen : r.length < 320) :
    (flushDownsampleRemainder idSimple st).2
      = Except.ok (if r.isEmpty then []
          else [r ++ List.replicate (320 - r.length) 0]) := by
  unfold flushDownsampleRemainder
  dsimp only
  rw [hbuf]
  by_cases hre : r.isEmpty
  · rw [List.isEmpty_iff.mp hre, listToOpt_nil]
    simp [hre]
  · have hrne : r ≠ [] := fun hc => hre (by rw [hc]; rfl)
    rw [listToOpt_ne_nil hrne]
    dsimp only
    rw [if_neg (by simpa using hre)]
    rw [resamplePass_idSimple r hval hev]
    dsimp only
    rw [clientChunkSize_eq, splitChunks_short 320 r hlen]
    dsimp only
    rw [if_neg (by simpa using hre), if_neg (by simpa using hre)]
    simp

theorem flatten_valid (calls : List (List ℕ))
    (hval : ∀ c ∈ calls, ∀ b ∈ c, b < 256) : ∀ b ∈ calls.flatten, b < 256 := by
  intro b hb
  obtain ⟨c, hc, hbc⟩ := List.mem_flatten.mp hb
  exact hval c hc b hbc

/-- C1: feeding any partition of N bytes (Buffer bytes, N even: whole 16-bit
samples) to the downsample path (rate 8000 -> 8000, identity stand-in
primitive) across arbitrary-sized calls, followed by one flush, yields output
whose concatenation is exactly the input followed by the zero padding of the
final partial chunk, with total byte count a multiple of 320, every chunk
exactly 320 bytes, and after every prefix of calls the residual buffer holds
exactly the still-unconsumed suffix of the pre-resample input (so it never
holds pre-resample input and post-resample output simultaneously). -/
theorem downsample_session_lossless (calls : List (List ℕ))
    (hval : ∀ c ∈ calls, ∀ b ∈ c, b < 256)
    (hev : calls.flatten.length % 2 = 0) :
    (downsampleSession calls).flatten
      = calls.flatten ++ List.replicate ((320 - calls.flatten.length % 320) % 320) 0 ∧
    (downsampleSession calls).flatten.length % 320 = 0 ∧
    (∀ c ∈ downsampleSession calls, c.length = 320) ∧
    ∀ pre suf, calls = pre ++ suf →
      (runDownsampleCalls (mkAudioResampler 8000) pre).1.downsampleBuffer
        = listToOpt (pre.flatten.drop (320 * (pre.flatten.length / 320))) := by
  obtain ⟨h1, h2, h3, h4⟩ := runDownsampleCalls_id calls (mkAudioResampler 8000) []
    rfl rfl (by simp) (by norm_num) hval
  simp only [List.nil_append] at h2 h3
  have hNeven := hev
  have hLlen : (calls.flatten.drop (320 * (calls.flatten.length / 320))).length
      = calls.flatten.length - 320 * (calls.flatten.length / 320) := List.length_drop _ _
  have hflush := flushDownsampleRemainder_id (runDownsampleCalls (mkAudioResampler 8000) calls).1
    (calls.flatten.drop (320 * (calls.flatten.length / 320))) h2
    (fun b hb => flatten_valid calls hval b (List.drop_subset _ _ hb))
    (by omega) (by omega)
  have hsession : downsampleSession calls
      = (runDownsampleCalls (mkAudioResampler 8000) calls).2
        ++ (if (calls.flatten.drop (320 * (calls.flatten.length / 320))).isEmpty then []
            else [calls.flatten.drop (320 * (calls.flatten.length / 320))
              ++ List.replicate (320 - (calls.flatten.drop (320 * (calls.flatten.length / 320))).length) 0]) := by
    unfold downsampleSession
    dsimp only
    have hp : flushDownsampleRemainder idSimple (runDownsampleCalls (mkAudioResampler 8000) calls).1
        = ((flushDownsampleRemainder idSimple (runDownsampleCalls (mkAudioResampler 8000) calls).1).1,
           Except.ok (if (calls.flatten.drop (320 * (calls.flatten.length / 320))).isEmpty then []
            else [calls.flatten.drop (320 * (calls.flatten.length / 320))
              ++ List.replicate (320 - (calls.flatten.drop (320 * (calls.flatten.length / 320))).length) 0])) :=
      Prod.ext rfl hflush
    rw [hp]
  by_cases hLe : (calls.flatten.drop (320 * (calls.flatten.length / 320))).isEmpty
  · have hLnil := List.isEmpty_iff.mp hLe
    have htake : calls.flatten.take (320 * (calls.flatten.length / 320)) = calls.flatten := by
      have := List.take_append_drop (320 * (calls.flatten.length / 320)) calls.flatten
      rw [hLnil, List.append_nil] at this
      exact this
    have hmod : calls.flatten.length % 320 = 0 := by
      have := hLlen
      rw [hLnil] at this
      simp only [List.length_nil] at this
      omega
    refine ⟨?_, ?_, ?_, ?_⟩
    · rw [hsession, if_pos hLe, List.append_nil, h3, htake, hmod]
      simp
    · rw [hsession, if_pos hLe, List.append_nil, h3, htake]
      omega
    · intro c hc
      rw [hsession, if_pos hLe, List.append_nil] at hc
      exact h4 c hc
    · intro pre suf hps
      obtain ⟨g1, g2, g3, g4⟩ := runDownsampleCalls_id pre (mkAudioResampler 8000) []
        rfl rfl (by simp) (by norm_num)
        (fun c hc => hval c (by rw [hps]; exact List.mem_append.mpr (Or.inl hc)))
      simpa using g2
  · have hLne : calls.flatten.drop (320 * (calls.flatten.length / 320)) ≠ [] :=
      fun hc => hLe (by rw [hc]; rfl)
    have hLpos : 0 < (calls.flatten.drop (320 * (calls.flatten.length / 320))).length :=
      List.length_pos.mpr hLne
    have hmod : calls.flatten.length % 320
        = (calls.flatten.drop (320 * (calls.flatten.length / 320))).length := by omega
    refine ⟨?_, ?_, ?_, ?_⟩
    · rw [hsession, if_neg hLe, List.flatten_append, h3]
      have hfl : ([calls.flatten.drop (320 * (calls.flatten.length / 320))
          ++ List.replicate (320 - (calls.flatten.drop (320 * (calls.flatten.length / 320))).length) 0] : List (List ℕ)).flatten
          = calls.flatten.drop (320 * (calls.flatten.length / 320))
            ++ List.replicate (320 - (calls.flatten.drop (320 * (calls.flatten.length / 320))).length) 0 := by
        simp
      rw [hfl, ← List.append_assoc, List.take_append_drop]
      have hcount : 320 - (calls.flatten.drop (320 * (calls.flatten.length / 320))).length
          = (320 - calls.flatten.length % 320) % 320 := by omega
      rw [hcount]
    · rw [hsession, if_neg hLe, List.flatten_append, h3]
      simp only [List.length_append, List.flatten_cons, List.flatten_nil, List.append_nil,
        List.length_take, List.length_replicate]
      have hL320 : (calls.flatten.drop (320 * (calls.flatten.length / 320))).length < 320 := by
        omega
      omega
    · intro c hc
      rw [hsession, if_neg hLe] at hc
      rcases List.mem_append.mp hc with h | h
      · exact h4 c h
      · have : c = calls.flatten.drop (320 * (calls.flatten.length / 320))
            ++ List.replicate (320 - (calls.flatten.drop (320 * (calls.flatten.length / 320))).length) 0 := by
          simpa using h
        rw [this, List.length_append, List.length_replicate]
        omega
    · intro pre suf hps
      obtain ⟨g1, g2, g3, g4⟩ := runDownsampleCalls_id pre (mkAudioResampler 8000) []
        rfl rfl (by simp) (by norm_num)
        (fun c hc => hval c (by rw [hps]; exact List.mem_append.mpr (Or.inl hc)))
      simpa using g2

theorem downsample_session_lossless_witness :
    (downsampleSession [[0, 0], [1, 0]]).flatten
      = [[0, 0], [1, 0]].flatten
        ++ List.replicate ((320 - [[0, 0], [1, 0]].flatten.length % 320) % 320) 0 ∧
    (downsampleSession [[0, 0], [1, 0]]).flatten.length % 320 = 0 :=
  ⟨(downsample_session_lossless [[0, 0], [1, 0]] (by decide) (by decide)).1,
   (downsample_session_lossless [[0, 0], [1, 0]] (by decide) (by decide)).2.1⟩

/-- C2: when the residual converts to a sequence whose final partial
remainder (after all full 320-byte chunks are split off) is non-empty,
`flushDownsampleRemainder` emits exactly the full chunks followed by one
final chunk of exactly 320 bytes, whose leading bytes are the remainder and
whose trailing bytes are zeros; nothing is discarded and the residual is
cleared. -/
theorem flush_pads_partial_remainder (simple : List ℚ → Except Unit (List ℚ))
    (st : ResamplerState) (buf res : List ℕ)
    (hbuf : st.downsampleBuffer = some buf) (hne : buf ≠ [])
    (hres : resamplePass simple buf = Except.ok res)
    (hrem : (splitChunks 320 res).2 ≠ []) :
    (flushDownsampleRemainder simple st).2
      = Except.ok ((splitChunks 320 res).1
          ++ [(splitChunks 320 res).2
            ++ List.replicate (320 - (splitChunks 320 res).2.length) 0]) ∧
    ((splitChunks 320 res).2
      ++ List.replicate (320 - (splitChunks 320 res).2.length) 0).length = 320 ∧
    (∀ c ∈ (splitChunks 320 res).1, c.length = 320) ∧
    (splitChunks 320 res).1.flatten ++ (splitChunks 320 res).2 = res ∧
    (flushDownsampleRemainder simple st).1.downsampleBuffer = none := by
  obtain ⟨hsp1, hsp2, hsp3⟩ := splitChunks_spec 320 (by norm_num) res
  have hform : flushDownsampleRemainder simple st
      = ({ st with downsampleBuffer := none },
         Except.ok ((splitChunks 320 res).1
          ++ [(splitChunks 320 res).2
            ++ List.replicate (320 - (splitChunks 320 res).2.length) 0])) := by
    unfold flushDownsampleRemainder
    dsimp only
    rw [hbuf]
    dsimp only
    rw [if_neg (fun h => hne (List.isEmpty_iff.mp h)), hres]
    dsimp only
    rw [clientChunkSize_eq]
    rw [if_neg (fun h => hrem (List.isEmpty_iff.mp h))]
  refine ⟨by rw [hform], ?_, hsp2, hsp1, by rw [hform]⟩
  rw [List.length_append, List.length_replicate]
  omega

theorem flush_pads_partial_remainder_witness :
    (flushDownsampleRemainder idSimple cexState3).2
      = Except.ok ((splitChunks 320 [0, 0]).1
          ++ [(splitChunks 320 [0, 0]).2
            ++ List.replicate (320 - (splitChunks 320 [0, 0]).2.length) 0]) ∧
    ((splitChunks 320 [0, 0]).2
      ++ List.replicate (320 - (splitChunks 320 [0, 0]).2.length) 0).length = 320 :=
  have h := flush_pads_partial_remainder idSimple cexState3 [0, 0] [0, 0] rfl (by decide)
    (resamplePass_idSimple [0, 0] (by decide) (by decide)) (by decide)
  ⟨h.1, h.2.1⟩

/-- C6 counterexample: at provider rate 150 (which is >= 100) the code's
`providerChunkSize` is `Math.floor(150 * 0.01 * 2)` = 3, which is odd and
differs from `floor(150 * 0.01) * 2` = 2, falsifying the claimed formula and
evenness for general rates >= 100. -/
theorem getBufferSizes_claim_cex :
    100 ≤ 150 ∧
    ¬ ((getBufferSizes 150).providerChunkSize = 150 / 100 * 2
        ∧ (getBufferSizes 150).providerChunkSize % 2 = 0) := by
  decide

/-- C6 amended: for every rate R >= 100 both chunk sizes are strictly
positive and `clientChunkSize` = 320 (even); `providerChunkSize` equals
`floor(R * 0.02)`, and when R is additionally a multiple of 100 it equals
`floor(R * 0.01) * 2` and is even. -/
theorem getBufferSizes_spec (R : ℕ) (h1 : 100 ≤ R) :
    0 < (getBufferSizes R).providerChunkSize ∧
    0 < (getBufferSizes R).clientChunkSize ∧
    (getBufferSizes R).clientChunkSize = 320 ∧
    (getBufferSizes R).clientChunkSize % 2 = 0 ∧
    (getBufferSizes R).providerChunkSize = R * 2 / 100 ∧
    (getBufferSizes R).downsampleThreshold = (getBufferSizes R).providerChunkSize * 2 ∧
    (R % 100 = 0 → (getBufferSizes R).providerChunkSize = R / 100 * 2
      ∧ (getBufferSizes R).providerChunkSize % 2 = 0) := by
  unfold getBufferSizes
  dsimp only
  refine ⟨by omega, by norm_num [clientSampleRate], by norm_num [clientSampleRate],
    by norm_num [clientSampleRate], rfl, rfl, fun hm => ⟨by omega, by omega⟩⟩

theorem getBufferSizes_spec_witness :
    0 < (getBufferSizes 8000).providerChunkSize ∧
    (getBufferSizes 8000).clientChunkSize = 320 ∧
    ((8000 : ℕ) % 100 = 0 → (getBufferSizes 8000).providerChunkSize = 8000 / 100 * 2
      ∧ (getBufferSizes 8000).providerChunkSize % 2 = 0) :=
  have h := getBufferSizes_spec 8000 (by decide)
  ⟨h.1, h.2.2.1, h.2.2.2.2.2.2⟩

/-- C8: converting int16 samples to float32 and back yields a sequence of the
same length in which every element is within one quantization step of the
original (in fact the round trip is exact for all in-range int16 values). -/
theorem codec_roundtrip_within_one (samples : List ℤ)
    (h : ∀ s ∈ samples, -32768 ≤ s ∧ s ≤ 32767) :
    (float32ToInt16 (int16ToFloat32 samples)).length = samples.length ∧
    ∀ i : ℕ, |(float32ToInt16 (int16ToFloat32 samples)).getD i 0 - samples.getD i 0| ≤ 1 := by
  rw [float32ToInt16_int16ToFloat32 samples h]
  exact ⟨rfl, fun i => by simp⟩

theorem codec_roundtrip_within_one_witness :
    (float32ToInt16 (int16ToFloat32 [-32768, -1, 0, 12345, 32767])).length
        = ([-32768, -1, 0, 12345, 32767] : List ℤ).length ∧
    ∀ i : ℕ, |(float32ToInt16 (int16ToFloat32 [-32768, -1, 0, 12345, 32767])).getD i 0
        - ([-32768, -1, 0, 12345, 32767] : List ℤ).getD i 0| ≤ 1 :=
  codec_roundtrip_within_one [-32768, -1, 0, 12345, 32767] (by decide)

/-- C9: calling `initialize()` twice in a row is observably identical to
calling it once: no instance field changes and no additional converter
handles are created (the ghost counter of `create` calls does not move on the
second call). -/
theorem initResampler_idempotent (st : ResamplerState) (n : ℕ) :
    initResamplerTracked (initResamplerTracked (st, n)) = initResamplerTracked (st, n) := by
  unfold initResamplerTracked initResampler
  by_cases h : st.isInitialized
  · simp [h]
  · simp [h]

theorem downsampleLoopGo_total (simple : List ℚ → Except Unit (List ℚ))
    (hs : ∀ fs, ∃ o, simple fs = Except.ok o) (th n : ℕ) :
    ∀ (fuel : ℕ) (buffer : Option (List ℕ)) (rest : List ℕ) (acc : List (List ℕ)),
    ∃ b r os, downsampleLoopGo simple th n fuel buffer rest acc = .ok b r os := by
  intro fuel
  induction fuel with
  | zero => exact fun buffer rest acc => ⟨_, _, _, rfl⟩
  | succ f ih =>
    intro buffer rest acc
    by_cases hc : 0 < th ∧ th ≤ rest.length
    · rw [downsampleLoopGo_step simple th n f buffer rest acc hc.1 hc.2]
      obtain ⟨o, ho⟩ := hs (int16ToFloat32 (bytesToInt16 (rest.take th)))
      have hp : resamplePass simple (rest.take th)
          = Except.ok (int16ToBytes (float32ToInt16 o)) := by
        unfold resamplePass
        rw [ho]
        rfl
      rw [hp]
      exact ih _ _ _
    · exact ⟨_, _, _, downsampleLoopGo_exit simple th n (f + 1) buffer rest acc hc⟩

theorem handleDownsampleChunk_total (simple : List ℚ → Except Unit (List ℚ))
    (st : ResamplerState) (input : List ℕ)
    (hs : ∀ fs, ∃ o, simple fs = Except.ok o) :
    ∃ outs, (handleDownsampleChunk simple st input).2 = Except.ok outs := by
  unfold handleDownsampleChunk
  dsimp only
  obtain ⟨b, r, os, heq⟩ := downsampleLoopGo_total simple hs
    (getBufferSizes (initResampler st).providerSampleRate).downsampleThreshold
    (getBufferSizes (initResampler st).providerSampleRate).clientChunkSize
    (combinedBuffer (initResampler st) input).length
    (initResampler st).downsampleBuffer
    (combinedBuffer (initResampler st) input) []
  rw [heq]
  exact ⟨os, rfl⟩

theorem downsampleLoopGo_chunks_len (simple : List ℚ → Except Unit (List ℚ))
    (th n : ℕ) (hn : 0 < n) :
    ∀ (fuel : ℕ) (buffer : Option (List ℕ)) (rest : List ℕ) (acc : List (List ℕ))
      (b : Option (List ℕ)) (r : List ℕ) (os : List (List ℕ)),
    (∀ c ∈ acc, c.length = n) →
    downsampleLoopGo simple th n fuel buffer rest acc = .ok b r os →
    ∀ c ∈ os, c.length = n := by
  intro fuel
  induction fuel with
  | zero =>
    intro buffer rest acc b r os hacc heq
    have : os = acc := by
      have h2 := heq
      rw [downsampleLoopGo] at h2
      cases h2
      rfl
    rw [this]
    exact hacc
  | succ f ih =>
    intro buffer rest acc b r os hacc heq
    by_cases hc : 0 < th ∧ th ≤ rest.length
    · rw [downsampleLoopGo_step simple th n f buffer rest acc hc.1 hc.2] at heq
      cases hpass : resamplePass simple (rest.take th) with
      | error e =>
        rw [hpass] at heq
        exact absurd heq (by simp)
      | ok resampled =>
        rw [hpass] at heq
        dsimp only at heq
        refine ih _ _ _ b r os ?_ heq
        intro c hcm
        rcases List.mem_append.mp hcm with h | h
        · exact hacc c h
        · exact (splitChunks_spec n hn resampled).2.1 c h
    · rw [downsampleLoopGo_exit simple th n (f + 1) buffer rest acc hc] at heq
      cases heq
      exact hacc

theorem handleDownsampleChunk_ok_chunks (simple : List ℚ → Except Unit (List ℚ))
    (st : ResamplerState) (input : List ℕ) (outs : List (List ℕ))
    (hok : (handleDownsampleChunk simple st input).2 = Except.ok outs) :
    ∀ c ∈ outs, c.length = 320 := by
  unfold handleDownsampleChunk at hok
  dsimp only at hok
  cases hloop : downsampleLoopGo simple
      (getBufferSizes (initResampler st).providerSampleRate).downsampleThreshold
      (getBufferSizes (initResampler st).providerSampleRate).clientChunkSize
      (combinedBuffer (initResampler st) input).length
      (initResampler st).downsampleBuffer
      (combinedBuffer (initResampler st) input) [] with
  | thrown b =>
    rw [hloop] at hok
    exact absurd hok (by simp)
  | ok b r os =>
    rw [hloop] at hok
    dsimp only at hok
    have hos : os = outs := by
      cases hok
      rfl
    rw [← hos]
    have h320 := clientChunkSize_eq (initResampler st).providerSampleRate
    rw [h320] at hloop
    exact downsampleLoopGo_chunks_len simple
      (getBufferSizes (initResampler st).providerSampleRate).downsampleThreshold
      320 (by norm_num) _ _ _ _ b r os (by simp) hloop

/-- C7: at any provider rate R >= 100 that is a multiple of 100, every chunk
returned by a successful (non-flush) `handleDownsampleChunk` call has length
exactly 320 bytes. -/
theorem downsample_chunk_size_invariant (R : ℕ) (_h1 : 100 ≤ R) (_h2 : R % 100 = 0)
    (simple : List ℚ → Except Unit (List ℚ)) (st : ResamplerState)
    (input : List ℕ) (outs : List (List ℕ))
    (_hrate : st.providerSampleRate = R)
    (hok : (handleDownsampleChunk simple st input).2 = Except.ok outs) :
    ∀ c ∈ outs, c.length = 320 :=
  handleDownsampleChunk_ok_chunks simple st input outs hok

theorem downsample_chunk_size_invariant_witness :
    (List.replicate 320 (0 : ℕ)).length = 320 := by
  obtain ⟨outs, heq, hflat, hlen⟩ := handleDownsampleChunk_id (mkAudioResampler 8000)
    (List.replicate 320 0) [] rfl rfl (fun b hb => absurd hb (List.not_mem_nil b))
    (fun b hb => by rw [List.eq_of_mem_replicate hb]; decide)
  rw [List.nil_append] at hflat
  have htake : (List.replicate 320 (0 : ℕ)).take
      (320 * ((List.replicate 320 (0 : ℕ)).length / 320)) = List.replicate 320 0 := by
    rw [List.length_replicate]
    rw [show 320 * (320 / 320) = 320 from by norm_num]
    exact List.take_of_length_le (by rw [List.length_replicate])
  rw [htake] at hflat
  have houts : outs = [List.replicate 320 0] := by
    cases outs with
    | nil =>
      have h0 := congrArg List.length hflat
      rw [List.length_replicate] at h0
      exact absurd h0 (by decide)
    | cons x xs =>
      cases xs with
      | nil =>
        rw [show ([x] : List (List ℕ)).flatten = x from by simp] at hflat
        rw [hflat]
      | cons y ys =>
        exfalso
        have hx := hlen x (by simp)
        have hy := hlen y (by simp)
        have hcontra := congrArg List.length hflat
        rw [List.length_replicate] at hcontra
        simp only [List.flatten_cons, List.length_append] at hcontra
        omega
  have hok : (handleDownsampleChunk idSimple (mkAudioResampler 8000)
      (List.replicate 320 0)).2 = Except.ok [List.replicate 320 0] := by
    rw [heq, houts]
  exact downsample_chunk_size_invariant 8000 (by decide) (by decide) idSimple
    (mkAudioResampler 8000) (List.replicate 320 0) [List.replicate 320 0] rfl hok
    (List.replicate 320 0) (List.mem_singleton.mpr rfl)

theorem flushDownsampleRemainder_none (simple : List ℚ → Except Unit (List ℚ))
    (st : ResamplerState) (h : st.downsampleBuffer = none) :
    flushDownsampleRemainder simple st = (st, Except.ok []) := by
  unfold flushDownsampleRemainder
  dsimp only
  rw [h]

theorem handleDownsampleChunk_state (simple : List ℚ → Except Unit (List ℚ))
    (st : ResamplerState) (input : List ℕ) :
    ∃ b, (handleDownsampleChunk simple st input).1
      = { initResampler st with downsampleBuffer := b } := by
  unfold handleDownsampleChunk
  dsimp only
  cases hloop : downsampleLoopGo simple
      (getBufferSizes (initResampler st).providerSampleRate).downsampleThreshold
      (getBufferSizes (initResampler st).providerSampleRate).clientChunkSize
      (combinedBuffer (initResampler st) input).length
      (initResampler st).downsampleBuffer
      (combinedBuffer (initResampler st) input) [] with
  | thrown b => exact ⟨b, rfl⟩
  | ok b r os => exact ⟨if r.isEmpty then b else some r, rfl⟩

theorem flushDownsampleRemainder_state (simple : List ℚ → Except Unit (List ℚ))
    (st : ResamplerState) :
    (flushDownsampleRemainder simple st).1 = st ∨
    (flushDownsampleRemainder simple st).1 = { st with downsampleBuffer := none } := by
  unfold flushDownsampleRemainder
  dsimp only
  cases hb : st.downsampleBuffer with
  | none => exact Or.inl rfl
  | some buf =>
    dsimp only
    by_cases he : buf.isEmpty = true
    · rw [if_pos he]
      exact Or.inl rfl
    · rw [if_neg he]
      cases hres : resamplePass simple buf with
      | error e => exact Or.inl rfl
      | ok res => exact Or.inr rfl

theorem initResampler_handles (st : ResamplerState)
    (h : st.isInitialized = true → st.downResampler = true ∧ st.upResampler = true) :
    (initResampler st).downResampler = true ∧ (initResampler st).upResampler = true := by
  unfold initResampler
  by_cases hi : st.isInitialized = true
  · rw [if_pos hi]
    exact h hi
  · rw [if_neg hi]
    exact ⟨rfl, rfl⟩

theorem reachable_invariant (st : ResamplerState) (h : Reachable st) :
    (st.isInitialized = true → st.downResampler = true ∧ st.upResampler = true) ∧
    (st.downsampleBuffer ≠ none → st.isInitialized = true) := by
  induction h with
  | construct rate => exact ⟨by simp [mkAudioResampler], by simp [mkAudioResampler]⟩
  | initializeStep hr ih =>
    refine ⟨fun _ => initResampler_handles _ ih.1, fun _ => initResampler_isInitialized _⟩
  | downsampleStep simple data hr ih =>
    obtain ⟨b, hb⟩ := handleDownsampleChunk_state simple _ data
    rw [hb]
    refine ⟨fun _ => initResampler_handles _ ih.1, fun _ => initResampler_isInitialized _⟩
  | @upsampleStep st1 simple data hr ih =>
    have hs : (handleUpsampleChunk simple st1 data).1 = initResampler st1 := rfl
    rw [hs]
    refine ⟨fun _ => initResampler_handles _ ih.1, fun _ => initResampler_isInitialized _⟩
  | flushStep simple hr ih =>
    rcases flushDownsampleRemainder_state simple _ with hf | hf
    · rw [hf]
      exact ih
    · rw [hf]
      exact ⟨ih.1, fun hc => absurd rfl hc⟩
  | destroyStep hr ih =>
    exact ⟨by simp [destroy], by simp [destroy]⟩

/-- C10: in every reachable state, a non-null `downsampleBuffer` implies the
instance is initialized with both converter handles non-null; consequently in
any reachable state where the down converter handle is null,
`flushDownsampleRemainder` takes its early-return path and never invokes the
null handle. -/
theorem buffer_nonnull_implies_initialized (st : ResamplerState) (h : Reachable st) :
    (st.downsampleBuffer ≠ none →
      st.isInitialized = true ∧ st.downResampler = true ∧ st.upResampler = true) ∧
    (st.downResampler = false →
      ∀ simple, flushDownsampleRemainder simple st = (st, Except.ok [])) := by
  obtain ⟨inv1, inv2⟩ := reachable_invariant st h
  constructor
  · intro hb
    have hi := inv2 hb
    exact ⟨hi, (inv1 hi).1, (inv1 hi).2⟩
  · intro hd simple
    have hbnone : st.downsampleBuffer = none := by
      by_contra hc
      have hi := inv2 hc
      have := (inv1 hi).1
      rw [this] at hd
      cases hd
    exact flushDownsampleRemainder_none simple st hbnone

theorem buffer_nonnull_implies_initialized_witness :
    ((handleDownsampleChunk idSimple (mkAudioResampler 100) [0, 0]).1.downsampleBuffer ≠ none →
      (handleDownsampleChunk idSimple (mkAudioResampler 100) [0, 0]).1.isInitialized = true ∧
      (handleDownsampleChunk idSimple (mkAudioResampler 100) [0, 0]).1.downResampler = true ∧
      (handleDownsampleChunk idSimple (mkAudioResampler 100) [0, 0]).1.upResampler = true) ∧
    ((handleDownsampleChunk idSimple (mkAudioResampler 100) [0, 0]).1.downResampler = false →
      ∀ simple, flushDownsampleRemainder simple
          (handleDownsampleChunk idSimple (mkAudioResampler 100) [0, 0]).1
        = ((handleDownsampleChunk idSimple (mkAudioResampler 100) [0, 0]).1, Except.ok [])) :=
  buffer_nonnull_implies_initialized _
    (Reachable.downsampleStep idSimple [0, 0] (Reachable.construct 100))

/-- C4 counterexample: on a destroyed instance, `handleDownsampleChunk` does
not fail with any error; it succeeds (returning `.ok`) and silently
re-initializes the instance via the lazy-initialization path. -/
theorem destroy_no_lifecycle_error_cex :
    (handleDownsampleChunk idSimple (destroy (initResampler (mkAudioResampler 8000))) []).2
      = Except.ok [] ∧
    (handleDownsampleChunk idSimple (destroy (initResampler (mkAudioResampler 8000))) []).1.isInitialized
      = true :=
  ⟨rfl, rfl⟩

/-- C4 amended: `destroy()` resets the instance to exactly the
freshly-constructed state, and a subsequent processing call raises no
lifecycle error: `handleDownsampleChunk` and `handleUpsampleChunk` silently
re-initialize (the initialized flag and both converter handles become
non-null again), and `flushDownsampleRemainder` returns `[]` unchanged
because the residual was cleared. -/
theorem destroy_then_process_reinitializes (st : ResamplerState) :
    destroy st = mkAudioResampler st.providerSampleRate ∧
    (∀ simple input,
      (handleDownsampleChunk simple (destroy st) input).1.isInitialized = true ∧
      (handleDownsampleChunk simple (destroy st) input).1.downResampler = true ∧
      (handleDownsampleChunk simple (destroy st) input).1.upResampler = true) ∧
    (∀ simple input,
      (handleUpsampleChunk simple (destroy st) input).1.isInitialized = true ∧
      (handleUpsampleChunk simple (destroy st) input).1.downResampler = true ∧
      (handleUpsampleChunk simple (destroy st) input).1.upResampler = true) ∧
    ∀ simple, flushDownsampleRemainder simple (destroy st) = (destroy st, Except.ok []) := by
  refine ⟨rfl, ?_, ?_, fun simple => flushDownsampleRemainder_none simple _ rfl⟩
  · intro simple input
    obtain ⟨b, hb⟩ := handleDownsampleChunk_state simple (destroy st) input
    rw [hb]
    exact ⟨rfl, rfl, rfl⟩
  · intro simple input
    exact ⟨rfl, rfl, rfl⟩

/-- C5 counterexample: odd-length inputs do not fail with any error. A
3-byte buffer to `handleUpsampleChunk` succeeds, returning the converted
first sample only (the trailing byte is silently dropped by the
`Int16Array` view), and a 1-byte buffer to `handleDownsampleChunk` succeeds
with no output. -/
theorem odd_input_no_error_cex :
    (handleUpsampleChunk idSimple (mkAudioResampler 8000) [0, 0, 5]).2 = Except.ok [0, 0] ∧
    (handleDownsampleChunk idSimple (mkAudioResampler 8000) [5]).2 = Except.ok [] := by
  constructor
  · have h1 : bytesToInt16 [0, 0, 5] = [0] := rfl
    have h2 : int16ToFloat32 [0] = [0] := by
      norm_num [int16ToFloat32]
    have h3 : float32ToInt16 [0] = [0] := by
      unfold float32ToInt16
      rw [List.map_cons, List.map_nil]
      rw [zero_mul, min_eq_right (by norm_num : (0:ℚ) ≤ 32767),
        max_eq_right (by norm_num : (-32768:ℚ) ≤ 0)]
      unfold truncToward0
      rw [if_neg (by norm_num)]
      simp
    have hpass : resamplePass idSimple [0, 0, 5] = Except.ok [0, 0] := by
      unfold resamplePass idSimple
      rw [h1, h2]
      dsimp only [Except.map]
      rw [h3]
      rfl
    exact hpass
  · rfl

/-- C5 amended: an odd-length input raises no InvalidInput error; the
trailing byte is silently invisible to processing. `handleUpsampleChunk`
behaves exactly as if the last byte had been removed, and
`handleDownsampleChunk` succeeds whenever the conversion primitive does. -/
theorem odd_input_silently_truncates (simple : List ℚ → Except Unit (List ℚ))
    (st : ResamplerState) (input : List ℕ) (hodd : input.length % 2 = 1) :
    handleUpsampleChunk simple st input = handleUpsampleChunk simple st input.dropLast ∧
    ((∀ fs, ∃ o, simple fs = Except.ok o) →
      ∃ outs, (handleDownsampleChunk simple st input).2 = Except.ok outs) := by
  constructor
  · unfold handleUpsampleChunk resamplePass
    rw [bytesToInt16_dropLast input hodd]
  · intro hs
    exact handleDownsampleChunk_total simple st input hs

theorem odd_input_silently_truncates_witness :
    handleUpsampleChunk idSimple (mkAudioResampler 8000) [0, 0, 5]
      = handleUpsampleChunk idSimple (mkAudioResampler 8000) ([0, 0, 5] : List ℕ).dropLast ∧
    ((∀ fs, ∃ o, idSimple fs = Except.ok o) →
      ∃ outs, (handleDownsampleChunk idSimple (mkAudioResampler 8000) [0, 0, 5]).2
        = Except.ok outs) :=
  odd_input_silently_truncates idSimple (mkAudioResampler 8000) [0, 0, 5] (by decide)

/-- C3 counterexample: at rate 100 (threshold 4), a call whose first
conversion pass succeeds and whose second pass throws leaves the residual
buffer mutated: it held `[0, 0]` before the call and holds `[0, 0, 0, 0]`
(the post-resample remainder of the completed first pass) after the error
propagates, so the failed call is not atomic. -/
theorem handle_not_atomic_cex :
    (handleDownsampleChunk simpleFailNonzero cexState3 [0, 0, 1, 0, 0, 0]).2
      = Except.error () ∧
    (handleDownsampleChunk simpleFailNonzero cexState3 [0, 0, 1, 0, 0, 0]).1.downsampleBuffer
      = some [0, 0, 0, 0] ∧
    cexState3.downsampleBuffer = some [0, 0] := by
  have hfs1 : int16ToFloat32 (bytesToInt16 [0, 0, 0, 0]) = [0, 0] := by
    rw [show bytesToInt16 [0, 0, 0, 0] = [0, 0] from rfl]
    norm_num [int16ToFloat32]
  have hchunk1 : resamplePass simpleFailNonzero [0, 0, 0, 0] = Except.ok [0, 0, 0, 0] := by
    refine resamplePass_of_id_on simpleFailNonzero [0, 0, 0, 0] (by decide) (by decide) ?_
    rw [hfs1]
    unfold simpleFailNonzero
    rw [if_pos (show ([0, 0] : List ℚ).head? = some 0 from rfl)]
  have hfs2 : int16ToFloat32 (bytesToInt16 [1, 0, 0, 0]) = [1 / 32768, 0] := by
    rw [show bytesToInt16 [1, 0, 0, 0] = [1, 0] from rfl]
    norm_num [int16ToFloat32]
  have hchunk2 : resamplePass simpleFailNonzero [1, 0, 0, 0] = Except.error () := by
    unfold resamplePass
    rw [hfs2]
    have hno : simpleFailNonzero [1 / 32768, 0] = Except.error () := by
      unfold simpleFailNonzero
      rw [if_neg]
      simp only [List.head?_cons, Option.some.injEq]
      norm_num
    rw [hno]
    rfl
  have hloop : downsampleLoopGo simpleFailNonzero 4 320 8 (some [0, 0])
      [0, 0, 0, 0, 1, 0, 0, 0] [] = DownsampleLoopResult.thrown (some [0, 0, 0, 0]) := by
    rw [show (8 : ℕ) = 7 + 1 from rfl]
    rw [downsampleLoopGo_step simpleFailNonzero 4 320 7 (some [0, 0])
      [0, 0, 0, 0, 1, 0, 0, 0] [] (by decide) (by decide)]
    rw [show List.take 4 ([0, 0, 0, 0, 1, 0, 0, 0] : List ℕ) = [0, 0, 0, 0] from rfl]
    rw [hchunk1]
    dsimp only
    rw [show splitChunks 320 ([0, 0, 0, 0] : List ℕ) = ([], [0, 0, 0, 0]) from rfl]
    dsimp only
    rw [show (if (([0, 0, 0, 0] : List ℕ).isEmpty = true) then (none : Option (List ℕ))
        else some [0, 0, 0, 0]) = some [0, 0, 0, 0] from rfl]
    rw [show List.drop 4 ([0, 0, 0, 0, 1, 0, 0, 0] : List ℕ) = [1, 0, 0, 0] from rfl]
    rw [show (([] : List (List ℕ)) ++ ([] : List (List ℕ))) = [] from rfl]
    rw [show (7 : ℕ) = 6 + 1 from rfl]
    rw [downsampleLoopGo_step simpleFailNonzero 4 320 6 (some [0, 0, 0, 0])
      [1, 0, 0, 0] [] (by decide) (by decide)]
    rw [show List.take 4 ([1, 0, 0, 0] : List ℕ) = [1, 0, 0, 0] from rfl]
    rw [hchunk2]
  have hrun : handleDownsampleChunk simpleFailNonzero cexState3 [0, 0, 1, 0, 0, 0]
      = ({ cexState3 with downsampleBuffer := some [0, 0, 0, 0] }, Except.error ()) := by
    unfold handleDownsampleChunk
    dsimp only
    rw [show initResampler cexState3 = cexState3 from rfl]
    rw [show combinedBuffer cexState3 [0, 0, 1, 0, 0, 0] = [0, 0, 0, 0, 1, 0, 0, 0] from rfl]
    rw [show (getBufferSizes cexState3.providerSampleRate).downsampleThreshold = 4 from rfl]
    rw [show (getBufferSizes cexState3.providerSampleRate).clientChunkSize = 320 from rfl]
    rw [show ([0, 0, 0, 0, 1, 0, 0, 0] : List ℕ).length = 8 from rfl]
    rw [show cexState3.downsampleBuffer = some [0, 0] from rfl]
    rw [hloop]
  exact ⟨by rw [hrun], by rw [hrun], rfl⟩

/-- C3 amended: a `handleDownsampleChunk` call is atomic only with respect to
a failure of its first conversion pass: if the primitive throws on the first
threshold slice, the error propagates and the residual buffer is exactly as
before the call. (When a later pass throws, the mutations of the completed
passes persist, as the counterexample shows.) -/
theorem handleDownsampleChunk_first_pass_atomic (simple : List ℚ → Except Unit (List ℚ))
    (st : ResamplerState) (input : List ℕ)
    (hth : 0 < (getBufferSizes st.providerSampleRate).downsampleThreshold)
    (hlen : (getBufferSizes st.providerSampleRate).downsampleThreshold
      ≤ (combinedBuffer st input).length)
    (hfail : resamplePass simple ((combinedBuffer st input).take
      (getBufferSizes st.providerSampleRate).downsampleThreshold) = Except.error ()) :
    (handleDownsampleChunk simple st input).2 = Except.error () ∧
    (handleDownsampleChunk simple st input).1.downsampleBuffer = st.downsampleBuffer := by
  have hcb : combinedBuffer (initResampler st) input = combinedBuffer st input := by
    unfold combinedBuffer
    rw [initResampler_downsampleBuffer]
  have hrt : (initResampler st).providerSampleRate = st.providerSampleRate :=
    initResampler_providerSampleRate st
  have hform : handleDownsampleChunk simple st input
      = ({ initResampler st with downsampleBuffer := st.downsampleBuffer },
         Except.error ()) := by
    unfold handleDownsampleChunk
    dsimp only
    rw [hcb, hrt]
    obtain ⟨f, hf⟩ : ∃ f, (combinedBuffer st input).length = f + 1 :=
      ⟨(combinedBuffer st input).length - 1, by omega⟩
    rw [hf, downsampleLoopGo_step simple _ _ f _ _ [] hth (by omega), hfail]
    dsimp only
    rw [initResampler_downsampleBuffer]
  exact ⟨by rw [hform], by rw [hform]⟩

theorem handleDownsampleChunk_first_pass_atomic_witness :
    (handleDownsampleChunk simpleFailAll cexState3 [1, 0, 0, 0]).2 = Except.error () ∧
    (handleDownsampleChunk simpleFailAll cexState3 [1, 0, 0, 0]).1.downsampleBuffer
      = cexState3.downsampleBuffer :=
  handleDownsampleChunk_first_pass_atomic simpleFailAll cexState3 [1, 0, 0, 0]
    (by decide) (by decide) rfl

end AVR
